import Mathlib

/-!
Verification of the remote-jobs-platform ETL/sync pipeline.

Shallow embedding of the Python sources under `src/backend`:
  * `app/core/data_lake.py`        (Cold Store: snapshots, listing, date range)
  * `app/services/etl_pipeline.py` (Sync Engine, Analytics Generator, salary stats)
  * `app/ai-agent-scripts/db_utils.py` and `backend/import_jobs_data.py` (ingestion)
  * `app/ai-agent-scripts/remote_remoteok_scraper.py` (URL dedup)
  * `app/tasks/scheduler.py`       (task scheduler)

Machine integers are modelled as `Nat`/`ℚ` (the programs never overflow), wall
clock readings (`datetime.now`, `datetime.utcnow`, `st_mtime`) as explicit `Nat`
parameters, and fallible constructs (`ValueError` from `datetime.date`, caught
per-record exceptions) as `Except`/explicit outcome oracles.
-/

namespace RemoteJobs

/-! ## Python-semantics helpers -/

/-- Truthiness of an optional string: Python `if s:` is false for `None` and `""`. -/
def pyTruthyStr : Option String → Bool
  | none => false
  | some s => !(s == "")

/-- Truthiness of an optional number: Python `if x:` is false for `None` and `0`. -/
def pyTruthyRat : Option ℚ → Bool
  | none => false
  | some x => !(x == 0)

/-- Truthiness of an optional list: Python `if l:` is false for `None` and `[]`. -/
def pyTruthyList : Option (List String) → Bool
  | some (_ :: _) => true
  | _ => false

/-- Python `x or dflt` for an optional string field (`None` and `""` fall back). -/
def pyOrStr (o : Option String) (dflt : String) : String :=
  match o with
  | some s => if s == "" then dflt else s
  | none => dflt

/-- Python `x or False` for an optional boolean field. -/
def pyOrBool (o : Option Bool) : Bool :=
  match o with
  | some b => b
  | none => false

/-- Python `f"{x}"` on an optional string: `None` renders as the text `"None"`. -/
def pyStrOfOpt : Option String → String
  | some s => s
  | none => "None"

/-- ASCII lowercasing, modelling `str.lower()` on the ASCII data this program handles. -/
def strLower (s : String) : String := s.map Char.toLower

/-- Does the first list lead (begin) the second?  Used for glob matching. -/
def listLeads : List Char → List Char → Bool
  | [], _ => true
  | _ :: _, [] => false
  | a :: as, b :: bs => a == b && listLeads as bs

/-- Substring test on character lists (Python `needle in hay`). -/
def listWithin (needle : List Char) : List Char → Bool
  | [] => needle.isEmpty
  | c :: rest => listLeads needle (c :: rest) || listWithin needle rest

/-- Python `needle in hay` for strings (substring containment). -/
def pyIn (needle hay : String) : Bool := listWithin needle.toList hay.toList

/-- Does the first string end the second? -/
def strEnds (tail s : String) : Bool := listLeads tail.toList.reverse s.toList.reverse

/-- Stable insertion of an element into a sorted list: the new element goes
before the first existing element it is `le`-related to.  Inserting the
earlier-positioned element this way makes `stableSortBy` a stable sort, which
is what Python's `list.sort`/`sorted` guarantee. -/
def stableInsert (le : α → α → Bool) (x : α) : List α → List α
  | [] => [x]
  | y :: ys => if le x y then x :: y :: ys else y :: stableInsert le x ys

/-- Stable sort by a boolean comparison; computes the same list as Python's
stable `sorted` for a total preorder. -/
def stableSortBy (le : α → α → Bool) : List α → List α
  | [] => []
  | x :: xs => stableInsert le x (stableSortBy le xs)

/-- Ascending numeric sort, modelling Python's `list.sort()` on numbers. -/
def sortRat (l : List ℚ) : List ℚ := stableSortBy (fun a b => decide (a ≤ b)) l

/-- Python `min` over a non-empty numeric list (`0` for the unreachable empty case). -/
def pyMinRat : List ℚ → ℚ
  | [] => 0
  | x :: xs => xs.foldl min x

/-- Python `max` over a non-empty numeric list (`0` for the unreachable empty case). -/
def pyMaxRat : List ℚ → ℚ
  | [] => 0
  | x :: xs => xs.foldl max x

/-- Python dict counter update `d[k] = d.get(k, 0) + 1`, as an insertion-ordered
association list (Python dicts preserve insertion order). -/
def assocBump [BEq κ] (m : List (κ × Nat)) (k : κ) : List (κ × Nat) :=
  if m.any (fun p => p.1 == k) then
    m.map (fun p => if p.1 == k then (p.1, p.2 + 1) else p)
  else
    m ++ [(k, 1)]

/-! ## Calendar dates (`datetime.date`)

`data_lake.py` builds successor dates with `date(current.year, current.month,
current.day + 1)`, which raises `ValueError` past the end of a month.  We model
the constructor's validation explicitly. -/

structure Date where
  year : Nat
  month : Nat
  day : Nat
deriving DecidableEq, Repr

/-- Gregorian leap-year rule used by `datetime.date`. -/
def isLeapYear (y : Nat) : Bool := y % 4 == 0 && (y % 100 != 0 || y % 400 == 0)

/-- Number of days in a month of a given year. -/
def daysInMonth (y m : Nat) : Nat :=
  if m == 2 then (if isLeapYear y then 29 else 28)
  else if m == 4 || m == 6 || m == 9 || m == 11 then 30
  else 31

/-- Validation performed by the `datetime.date` constructor; `false` models
`ValueError`. -/
def dateValid (y m d : Nat) : Bool :=
  1 ≤ y && y ≤ 9999 && 1 ≤ m && m ≤ 12 && 1 ≤ d && d ≤ daysInMonth y m

/-- `datetime.date` comparison `a <= b` (lexicographic on year, month, day). -/
def dateLe (a b : Date) : Bool :=
  a.year < b.year
    || (a.year == b.year
        && (a.month < b.month || (a.month == b.month && a.day ≤ b.day)))

/-! ## Job records

`SqliteJob` embeds the Source Store row (`app/models/job.py`, as read by the
sync query), `JobFields` the Secondary Store `JobDocument`
(`app/models/mongodb_models.py`) minus its Mongo `_id` (kept separately in
`StoredDoc.oid`).  Timestamps are `Nat` clock readings; salaries are `ℚ`. -/

structure MetaData where
  source : String
  sync_date : Nat
deriving DecidableEq, Repr

structure JobFields where
  title : String
  company : String
  location : Option String
  salary_min : Option ℚ
  salary_max : Option ℚ
  salary_currency : String
  salary_period : String
  description : Option String
  requirements : Option String
  benefits : Option String
  job_type : Option String
  experience_level : Option String
  remote_type : String
  source_url : String
  source_platform : String
  posted_date : Option Nat
  application_url : Option String
  company_logo : Option String
  company_description : Option String
  company_size : Option String
  company_industry : Option String
  skills_required : Option (List String)
  ai_generated_summary : Option String
  ai_processed : Bool
  is_active : Bool
  created_at : Nat
  updated_at : Nat
  search_score : Option ℚ
  tags : Option (List String)
  metadata : Option MetaData
deriving DecidableEq, Repr

structure SqliteJob where
  id : Nat
  title : String
  company : String
  location : Option String
  salary_min : Option ℚ
  salary_max : Option ℚ
  salary_currency : Option String
  salary_period : Option String
  description : Option String
  requirements : Option String
  benefits : Option String
  job_type : Option String
  experience_level : Option String
  remote_type : String
  source_url : String
  source_platform : String
  posted_date : Option Nat
  application_url : Option String
  company_logo : Option String
  company_description : Option String
  company_size : Option String
  company_industry : Option String
  skills_required : Option (List String)
  ai_generated_summary : Option String
  ai_processed : Option Bool
  is_active : Bool
  created_at : Nat
  updated_at : Nat
deriving DecidableEq, Repr

/-- `ETLPipeline._generate_tags`: categorical labels from experience level, job
type, the first five skills, and the AI-processed flag. -/
def generateTags (job : SqliteJob) : List String :=
  let tags : List String := []
  let tags := match job.experience_level with
    | some s => if s == "" then tags else tags ++ ["level_" ++ s]
    | none => tags
  let tags := match job.job_type with
    | some s => if s == "" then tags else tags ++ ["type_" ++ s]
    | none => tags
  let tags := match job.skills_required with
    | some skills =>
        if skills.isEmpty then tags
        else tags ++ (skills.take 5).map (fun skill =>
          "skill_" ++ (strLower skill).map (fun c => if c == ' ' then '_' else c))
    | none => tags
  let tags := if pyOrBool job.ai_processed then tags ++ ["ai_verified"] else tags
  tags

/-- `ETLPipeline._convert_sqlite_to_mongodb`: deterministic field mapping from a
Source Store row to a `JobDocument`.  `now` is the `datetime.utcnow()` reading
stamped into `metadata.sync_date`. -/
def convertSqliteToMongodb (now : Nat) (j : SqliteJob) : JobFields :=
  { title := j.title
    company := j.company
    location := j.location
    salary_min := j.salary_min
    salary_max := j.salary_max
    salary_currency := pyOrStr j.salary_currency "USD"
    salary_period := pyOrStr j.salary_period "yearly"
    description := j.description
    requirements := j.requirements
    benefits := j.benefits
    job_type := j.job_type
    experience_level := j.experience_level
    remote_type := "remote"
    source_url := j.source_url
    source_platform := j.source_platform
    posted_date := j.posted_date
    application_url := j.application_url
    company_logo := j.company_logo
    company_description := j.company_description
    company_size := j.company_size
    company_industry := j.company_industry
    skills_required := j.skills_required
    ai_generated_summary := j.ai_generated_summary
    ai_processed := pyOrBool j.ai_processed
    is_active := j.is_active
    created_at := j.created_at
    updated_at := j.updated_at
    search_score := none
    tags := some (generateTags j)
    metadata := some { source := "sqlite_sync", sync_date := now } }

/-! ## Sync Engine (`ETLPipeline.sync_sqlite_to_mongodb`)

The Secondary Store `jobs` collection is a list of documents in insertion
order; `insert_one` appends a document carrying a fresh `_id` (drawn from the
`oidSupply` counter) and `update_one` `$set`s all fields except `_id` on the
first document matching the `source_url` filter.  Per-record exceptions
(conversion or write failures) are modelled by the `raises` oracle: such a
record is counted in `errors`, changes nothing, and the loop continues. -/

structure StoredDoc where
  oid : Nat
  fields : JobFields
deriving DecidableEq, Repr

structure SyncState where
  store : List StoredDoc
  oidSupply : Nat
  synced : Nat
  updated : Nat
  errors : Nat
deriving DecidableEq, Repr

/-- `jobs_collection.find_one({"source_url": url})`: first match in the collection. -/
def findByUrl (url : String) (store : List StoredDoc) : Option StoredDoc :=
  store.find? (fun d => d.fields.source_url == url)

/-- `update_one({"source_url": url}, {"$set": fields})`: overwrite the fields of
the first matching document, keeping its `_id`. -/
def updateFirstDoc (url : String) (f : JobFields) : List StoredDoc → List StoredDoc
  | [] => []
  | d :: ds =>
      if d.fields.source_url == url then { d with fields := f } :: ds
      else d :: updateFirstDoc url f ds

/-- One iteration of the per-record loop in `sync_sqlite_to_mongodb`. -/
def syncStep (now : Nat) (raises : SqliteJob → Bool) (st : SyncState)
    (j : SqliteJob) : SyncState :=
  if raises j then { st with errors := st.errors + 1 }
  else
    let doc := convertSqliteToMongodb now j
    match findByUrl j.source_url st.store with
    | some _ =>
        { st with
          store := updateFirstDoc j.source_url doc st.store
          updated := st.updated + 1 }
    | none =>
        { st with
          store := st.store ++ [{ oid := st.oidSupply, fields := doc }]
          oidSupply := st.oidSupply + 1
          synced := st.synced + 1 }

/-- `sqlite_jobs[i:i + batch_size]` slicing: the run iterates over consecutive
chunks of the row list.  (`batch_size = 0` would make Python's `range` raise;
the function is only used with positive batch sizes.) -/
def listChunks : Nat → List α → List (List α)
  | _, [] => []
  | 0, _ :: _ => []
  | n + 1, x :: rest =>
      ((x :: rest).take (n + 1)) :: listChunks (n + 1) ((x :: rest).drop (n + 1))
termination_by _ xs => xs.length
decreasing_by simp only [List.length_drop, List.length_cons]; omega

/-- `ETLPipeline.sync_sqlite_to_mongodb`: fold the per-record step over the
batched row list, starting from the current collection contents, an `_id`
supply, and zeroed counters. -/
def syncSqliteToMongodb (now : Nat) (raises : SqliteJob → Bool) (batchSize : Nat)
    (jobs : List SqliteJob) (store : List StoredDoc) (oidSupply : Nat) : SyncState :=
  (listChunks batchSize jobs).foldl
    (fun st batch => batch.foldl (syncStep now raises) st)
    { store := store, oidSupply := oidSupply, synced := 0, updated := 0, errors := 0 }

/-! ## Analytics metric calculators (`ETLPipeline._calculate_*`)

These operate on the job documents returned by `find({"is_active": True})`
(dicts in Python; `JobFields` here).  `job.get(key, default)` on such a dict
returns the stored value — possibly `None` — because every key is present. -/

structure SalaryStats where
  count : Nat
  average : ℚ
  median : ℚ
  min : ℚ
  max : ℚ
deriving DecidableEq, Repr

/-- The salary-collection loop of `_calculate_salary_stats`: midpoint when both
bounds are truthy, the single truthy bound otherwise, nothing when neither is
truthy (Python truthiness: `None` and `0` are falsy). -/
def salaryValues : List JobFields → List ℚ
  | [] => []
  | job :: rest =>
      if pyTruthyRat job.salary_min && pyTruthyRat job.salary_max then
        ((job.salary_min.getD 0 + job.salary_max.getD 0) / 2) :: salaryValues rest
      else if pyTruthyRat job.salary_min then
        job.salary_min.getD 0 :: salaryValues rest
      else if pyTruthyRat job.salary_max then
        job.salary_max.getD 0 :: salaryValues rest
      else
        salaryValues rest

/-- `ETLPipeline._calculate_salary_stats`. -/
def calcSalaryStats (jobs : List JobFields) : SalaryStats :=
  let salaries := salaryValues jobs
  if salaries.isEmpty then
    { count := 0, average := 0, median := 0, min := 0, max := 0 }
  else
    let sorted := sortRat salaries
    { count := sorted.length
      average := sorted.sum / (sorted.length : ℚ)
      median := sorted.getD (sorted.length / 2) 0
      min := pyMinRat sorted
      max := pyMaxRat sorted }

/-- `ETLPipeline._calculate_experience_distribution`; the dict is keyed by the
stored `experience_level` value (which may be `None`). -/
def calcExperienceDistribution (jobs : List JobFields) : List (Option String × Nat) :=
  jobs.foldl (fun m job => assocBump m job.experience_level) []

structure CompanyStats where
  total_companies : Nat
  top_companies : List (String × Nat)
deriving DecidableEq, Repr

/-- Python `sorted(items, key=lambda x: x[1], reverse=True)`: stable descending
sort by count. -/
def sortByCountDesc [BEq κ] (m : List (κ × Nat)) : List (κ × Nat) :=
  stableSortBy (fun a b => decide (b.2 ≤ a.2)) m

/-- `ETLPipeline._calculate_company_stats`. -/
def calcCompanyStats (jobs : List JobFields) : CompanyStats :=
  let companies := jobs.foldl (fun m job => assocBump m job.company) []
  { total_companies := companies.length
    top_companies := (sortByCountDesc companies).take 10 }

structure SkillsAnalysis where
  total_unique_skills : Nat
  most_demanded_skills : List (String × Nat)
deriving DecidableEq, Repr

/-- `ETLPipeline._calculate_skills_analysis`. -/
def calcSkillsAnalysis (jobs : List JobFields) : SkillsAnalysis :=
  let all_skills := jobs.foldl
    (fun acc job =>
      if pyTruthyList job.skills_required then acc ++ job.skills_required.getD []
      else acc) []
  let skill_counts := all_skills.foldl (fun m skill => assocBump m skill) []
  { total_unique_skills := skill_counts.length
    most_demanded_skills := (sortByCountDesc skill_counts).take 20 }

structure RemoteIndicators where
  explicitly_remote : Nat
  has_remote_keywords : Nat
  location_agnostic : Nat
deriving DecidableEq, Repr

def remoteKeywords : List String :=
  ["remote", "distributed", "work from home", "wfh", "telecommute", "virtual", "online"]

/-- `ETLPipeline._calculate_remote_indicators`.  The searched text is the
f-string `f"{title} {description}"` lowercased (a `None` description renders as
the literal text `None`); the location test short-circuits, so `.lower()` is
only reached on a truthy location. -/
def calcRemoteIndicators (jobs : List JobFields) : RemoteIndicators :=
  jobs.foldl
    (fun ind job =>
      let text := strLower (job.title ++ " " ++ pyStrOfOpt job.description)
      let ind :=
        if job.remote_type == "remote" then
          { ind with explicitly_remote := ind.explicitly_remote + 1 }
        else ind
      let ind :=
        if remoteKeywords.any (fun keyword => pyIn keyword text) then
          { ind with has_remote_keywords := ind.has_remote_keywords + 1 }
        else ind
      let ind :=
        if !pyTruthyStr job.location
            || (strLower (job.location.getD "") ∈ ["remote", "anywhere", "global"]) then
          { ind with location_agnostic := ind.location_agnostic + 1 }
        else ind
      ind)
    { explicitly_remote := 0, has_remote_keywords := 0, location_agnostic := 0 }

structure AiStats where
  total_jobs : Nat
  ai_processed : Nat
  ai_processing_rate : ℚ
deriving DecidableEq, Repr

/-- `ETLPipeline._calculate_ai_stats`. -/
def calcAiStats (jobs : List JobFields) : AiStats :=
  let total_jobs := jobs.length
  let ai_processed := jobs.countP (fun job => job.ai_processed)
  { total_jobs := total_jobs
    ai_processed := ai_processed
    ai_processing_rate :=
      if total_jobs > 0 then (ai_processed : ℚ) / (total_jobs : ℚ) * 100 else 0 }

structure Metrics where
  total_jobs : Nat
  salary_stats : SalaryStats
  experience_level_distribution : List (Option String × Nat)
  company_stats : CompanyStats
  skills_analysis : SkillsAnalysis
  remote_work_indicators : RemoteIndicators
  ai_processing_stats : AiStats
deriving DecidableEq, Repr

/-- The `metrics` dict assembled in `generate_analytics_metrics`. -/
def computeMetrics (jobs : List JobFields) : Metrics :=
  { total_jobs := jobs.length
    salary_stats := calcSalaryStats jobs
    experience_level_distribution := calcExperienceDistribution jobs
    company_stats := calcCompanyStats jobs
    skills_analysis := calcSkillsAnalysis jobs
    remote_work_indicators := calcRemoteIndicators jobs
    ai_processing_stats := calcAiStats jobs }

/-! ## Analytics Generator (`ETLPipeline.generate_analytics_metrics`)

The Secondary Store `analytics` collection receives an `AnalyticsMetric`
document via `insert_one`; the model's `date` field is the document's
`date = utcnow()` default (the target date is used only for the Cold Store
path).  The Cold Store write (`store_analytics_data`) appends a dated JSON
blob under the `analytics/...` partition. -/

structure AnalyticsDoc where
  oid : Nat
  date : Nat
  metric_type : String
  data : Metrics
deriving DecidableEq, Repr

structure AnalyticsLakeEntry where
  metric_type : String
  date : Date
  created_at : Nat
  data : Metrics
deriving DecidableEq, Repr

structure AnalyticsResult where
  metrics : Metrics
  lake : List AnalyticsLakeEntry
  collection : List AnalyticsDoc
deriving DecidableEq, Repr

/-- `ETLPipeline.generate_analytics_metrics` for a target date: compute metrics
over the active documents of the `jobs` collection, append the Cold Store blob,
and `insert_one` a fresh `daily_metrics` document into `analytics`. -/
def generateAnalyticsMetrics (now : Nat) (oid : Nat) (targetDate : Date)
    (jobsStore : List StoredDoc) (lake : List AnalyticsLakeEntry)
    (analytics : List AnalyticsDoc) : AnalyticsResult :=
  let activeJobs := (jobsStore.filter (fun d => d.fields.is_active)).map (fun d => d.fields)
  let metrics := computeMetrics activeJobs
  { metrics := metrics
    lake := lake ++ [{ metric_type := "daily_metrics", date := targetDate,
                       created_at := now, data := metrics }]
    collection := analytics ++ [{ oid := oid, date := now,
                                  metric_type := "daily_metrics", data := metrics }] }

/-- Number of `daily_metrics` documents in the `analytics` collection. -/
def countDailyMetrics (l : List AnalyticsDoc) : Nat :=
  (l.filter (fun d => d.metric_type == "daily_metrics")).length

/-! ## Cold Store snapshots (`DataLakeManager`, local-filesystem branch)

A daily partition (`{data_type}/year=Y/month=M/day=D`) is a list of files with
names, modification times and structured contents (gzip + JSON round-trips are
the identity on the structured value).  `store_daily_snapshot` writes a file
named `{data_type}_snapshot_{time}.json.gz` — `write_bytes` overwrites a file
of the same name — and `retrieve_daily_snapshot` globs that pattern and picks
the file with maximal `st_mtime` (Python `max` keeps the first maximum). -/

structure SnapshotContent where
  snapshot_date : Date
  created_at : Nat
  data_type : String
  record_count : Nat
  data : List JobFields
deriving DecidableEq, Repr

structure FileEntry where
  name : String
  mtime : Nat
  content : SnapshotContent
deriving DecidableEq, Repr

/-- `f"{data_type}_snapshot_{timestamp}.json.gz"`; the model renders the
`%H%M%S` time suffix as the clock value. -/
def snapshotFileName (dataType : String) (clock : Nat) : String :=
  dataType ++ "_snapshot_" ++ toString clock ++ ".json.gz"

/-- `Path.write_bytes`: overwrite the file of the same name, else create it. -/
def writeFileEntry (files : List FileEntry) (f : FileEntry) : List FileEntry :=
  if files.any (fun g => g.name == f.name) then
    files.map (fun g => if g.name == f.name then f else g)
  else
    files ++ [f]

/-- `DataLakeManager.store_daily_snapshot` on the partition of `targetDate`:
write the compressed snapshot blob; its `st_mtime` is the write clock. -/
def storeDailySnapshot (clock : Nat) (dataType : String) (data : List JobFields)
    (targetDate : Date) (files : List FileEntry) : List FileEntry :=
  writeFileEntry files
    { name := snapshotFileName dataType clock
      mtime := clock
      content :=
        { snapshot_date := targetDate, created_at := clock, data_type := dataType
          record_count := data.length, data := data } }

/-- The glob `{data_type}_snapshot_*.json.gz`. -/
def globMatch (dataType : String) (nm : String) : Bool :=
  listLeads (dataType ++ "_snapshot_").toList nm.toList && strEnds ".json.gz" nm

/-- Python `max(files, key=mtime)` (first maximum wins); `none` for the empty
list, where the source returns `None` before calling `max`. -/
def pyMaxByMtime : List FileEntry → Option FileEntry
  | [] => none
  | f :: fs => some (fs.foldl (fun acc g => if g.mtime > acc.mtime then g else acc) f)

/-- `DataLakeManager.retrieve_daily_snapshot` on a daily partition: a missing
directory and an empty glob both yield `None`; otherwise decompress and parse
the most recently modified matching file. -/
def retrieveDailySnapshot (dataType : String) (files : List FileEntry) :
    Option SnapshotContent :=
  let matching := files.filter (fun f => globMatch dataType f.name)
  match pyMaxByMtime matching with
  | none => none
  | some f => some f.content

/-! ## Snapshot listing (`DataLakeManager.list_snapshots` / `_date_range`)

`_date_range` is a generator: it yields `current` and then computes
`date(current.year, current.month, current.day + 1)`, which raises `ValueError`
once `day + 1` exceeds the month (the month and year are never advanced).  The
`except` handler in `list_snapshots` turns any such failure into `[]`,
discarding the keys collected so far. -/

def dateRangeGo (endD : Date) (y m : Nat) : Nat → Except Unit (List Date)
  | d =>
    if dateLe ⟨y, m, d⟩ endD then
      if dateValid y m (d + 1) then
        match dateRangeGo endD y m (d + 1) with
        | .error u => .error u
        | .ok rest => .ok (⟨y, m, d⟩ :: rest)
      else .error ()
    else .ok []
termination_by d => daysInMonth y m + 1 - d
decreasing_by
  rename_i h
  simp only [dateValid, Bool.and_eq_true, decide_eq_true_eq] at h
  omega

/-- The dates produced by `_date_range(start, end)`, or the `ValueError`. -/
def dateRange (startD endD : Date) : Except Unit (List Date) :=
  dateRangeGo endD startD.year startD.month startD.day

/-- `DataLakeManager.list_snapshots` for a fixed data type: `lake d` is the
list of object keys under the daily partition of `d`; the surrounding
`try/except` converts the generator's `ValueError` into an empty result. -/
def listSnapshots (lake : Date → List String) (startD endD : Date) : List String :=
  match dateRange startD endD with
  | .error _ => []
  | .ok ds => ds.foldl (fun acc d => acc ++ lake d) []

/-! ## Ingestion (`db_utils.insert_jobs_into_db` / `job_exists_by_url`)

`RawJob` carries the scraped-dict fields this claim depends on; a missing or
null `url` key becomes `""` through `transform_job_data`'s
`job.get('url', '')` (both are falsy, which is all that matters here).  The
salary-string parsing and remaining columns of `transform_job_data` do not
influence the URL-uniqueness behaviour and are projected away.  The
`validate` oracle is the external `validate_remote_job_with_o1` verdict
(`is_valid`), and the `raises` oracle models a per-job exception in
transform/insert, which the `except` clause turns into a bare `continue`. -/

structure RawJob where
  url : Option String
  title : String
  company : String
  location : String
  description : String
deriving DecidableEq, Repr

structure DbRow where
  title : String
  company : String
  location : String
  url : String
  description : String
  source_platform : String
  created_at : Nat
deriving DecidableEq, Repr

/-- `transform_job_data` restricted to the retained columns;
`url := job.get('url', '')`. -/
def transformJobData (now : Nat) (platform : String) (j : RawJob) : DbRow :=
  { title := j.title, company := j.company, location := j.location
    url := j.url.getD "", description := j.description
    source_platform := platform, created_at := now }

/-- `job_exists_by_url`: `if not url: return False`, else
`SELECT COUNT(*) FROM jobs WHERE url = ?` compared with 0. -/
def jobExistsByUrl (db : List DbRow) (url : String) : Bool :=
  if url == "" then false
  else db.countP (fun r => r.url == url) > 0

structure IngestState where
  db : List DbRow
  imported : Nat
  skipped : Nat
deriving DecidableEq, Repr

/-- One iteration of the job loop in `insert_jobs_into_db`. -/
def insertJobsStep (now : Nat) (platform : String) (validate : RawJob → Bool)
    (raises : RawJob → Bool) (st : IngestState) (job : Option RawJob) : IngestState :=
  match job with
  | none => st
  | some j =>
      if raises j then st
      else if !validate j then { st with skipped := st.skipped + 1 }
      else
        let t := transformJobData now platform j
        if jobExistsByUrl st.db t.url then { st with skipped := st.skipped + 1 }
        else { st with db := st.db ++ [t], imported := st.imported + 1 }

/-- `insert_jobs_into_db`: process the job list against the current `jobs`
table (the cursor sees its own uncommitted inserts). -/
def insertJobsIntoDb (now : Nat) (platform : String) (validate : RawJob → Bool)
    (raises : RawJob → Bool) (db : List DbRow) (jobs : List (Option RawJob)) :
    IngestState :=
  if jobs.isEmpty then { db := db, imported := 0, skipped := 0 }
  else jobs.foldl (insertJobsStep now platform validate raises)
    { db := db, imported := 0, skipped := 0 }

/-! ## Scraper URL dedup (`clean_and_deduplicate_jobs`)

Identical in `remote_remoteok_scraper.py` and
`remote_weworkremotely_scraper_v2.py`: keep a job when its URL is non-empty and
unseen, recording the URL; otherwise skip it. -/

/-- `job.get('url', '')` on a scraped job dict. -/
def rawUrl (j : RawJob) : String := j.url.getD ""

def cleanDedupGo (seen : List String) : List RawJob → List RawJob
  | [] => []
  | j :: rest =>
      let job_url := rawUrl j
      if !(job_url == "") && !(seen.contains job_url) then
        j :: cleanDedupGo (seen ++ [job_url]) rest
      else
        cleanDedupGo seen rest

/-- `clean_and_deduplicate_jobs`. -/
def cleanAndDeduplicateJobs (jobs : List RawJob) : List RawJob :=
  cleanDedupGo [] jobs

/-! ## Task scheduler (`TaskScheduler`)

The scheduler state is the list of configured jobs (APScheduler holds one job
object per id; `add_job(..., replace_existing=True)` keeps ids unique in
`_setup_jobs`).  `get_job` returns the first job with the requested id and
`job.modify(next_run_time=now)` rewrites only that job's next run time; the
model's `getJob`/`modifyNextRun` never raise, so `trigger_job`'s `except`
branch is unreachable. -/

structure SchedJob where
  id : String
  name : String
  next_run_time : Option Nat
  trigger : String
deriving DecidableEq, Repr

/-- The five jobs configured by `TaskScheduler._setup_jobs`. -/
def setupJobs : List SchedJob :=
  [ { id := "daily_sync", name := "Daily SQLite to MongoDB Sync",
      next_run_time := none, trigger := "cron hour=2 minute=0" },
    { id := "daily_snapshot", name := "Daily Job Snapshot",
      next_run_time := none, trigger := "cron hour=3 minute=0" },
    { id := "daily_analytics", name := "Daily Analytics Generation",
      next_run_time := none, trigger := "cron hour=4 minute=0" },
    { id := "weekly_cleanup", name := "Weekly Data Cleanup",
      next_run_time := none, trigger := "cron day_of_week=6 hour=1 minute=0" },
    { id := "hourly_sync", name := "Hourly Sync During Business Hours",
      next_run_time := none, trigger := "cron hour=9-18 minute=0 day_of_week=0-4" } ]

/-- `self.scheduler.get_job(job_id)`. -/
def getJob (s : List SchedJob) (jobId : String) : Option SchedJob :=
  s.find? (fun j => j.id == jobId)

/-- `job.modify(next_run_time=datetime.now())` on the job returned by
`get_job`: rewrite the first job with that id. -/
def modifyNextRun (now : Nat) (jobId : String) : List SchedJob → List SchedJob
  | [] => []
  | j :: js =>
      if j.id == jobId then { j with next_run_time := some now } :: js
      else j :: modifyNextRun now jobId js

/-- `TaskScheduler.trigger_job`: returns the success flag and the new job list. -/
def triggerJob (now : Nat) (s : List SchedJob) (jobId : String) :
    Bool × List SchedJob :=
  match getJob s jobId with
  | some _ => (true, modifyNextRun now jobId s)
  | none => (false, s)

/-! ## Specification-side definitions and shared test fixtures -/

/-- A bound counts as present when it is a non-null, non-zero value; `0` is
treated as absent (the code's Python truthiness, documented by claim C10). -/
def specBound (o : Option ℚ) : Option ℚ :=
  match o with
  | some x => if x = 0 then none else some x
  | none => none

/-- Written from the claim text of C4: the value a job contributes to the
salary statistics — the midpoint when both bounds are present, the single
present bound otherwise, nothing when neither is present. -/
def specSalaryContribution (j : JobFields) : Option ℚ :=
  match specBound j.salary_min, specBound j.salary_max with
  | some a, some b => some ((a + b) / 2)
  | some a, none => some a
  | none, some b => some b
  | none, none => none

/-- Replace zero salary bounds by absent ones. -/
def clearZeroBounds (j : JobFields) : JobFields :=
  { j with salary_min := specBound j.salary_min, salary_max := specBound j.salary_max }

/-- Strip the per-run sync timestamp from a document's provenance metadata. -/
def eraseSyncFields (f : JobFields) : JobFields :=
  { f with metadata := f.metadata.map (fun m => { m with sync_date := 0 }) }

/-- A Secondary Store `jobs` collection up to sync timestamps. -/
def eraseSyncStore (store : List StoredDoc) : List StoredDoc :=
  store.map (fun d => { d with fields := eraseSyncFields d.fields })

/-- The run-without-failures oracle: no per-record exception occurs. -/
def noRaise : SqliteJob → Bool := fun _ => false

/-- The `source_url` keys of a `jobs` collection, in document order. -/
def storeUrls (store : List StoredDoc) : List String :=
  store.map (fun d => d.fields.source_url)

/-- The fields of the first document matching a `source_url`. -/
def findFields (url : String) (store : List StoredDoc) : Option JobFields :=
  (findByUrl url store).map (fun d => d.fields)

/-- A job document fixture with the given salary bounds. -/
def testJob (mn mx : Option ℚ) : JobFields :=
  { title := "t", company := "c", location := none, salary_min := mn, salary_max := mx
    salary_currency := "USD", salary_period := "yearly", description := none
    requirements := none, benefits := none, job_type := none, experience_level := none
    remote_type := "remote", source_url := "u", source_platform := "p"
    posted_date := none, application_url := none, company_logo := none
    company_description := none, company_size := none, company_industry := none
    skills_required := none, ai_generated_summary := none, ai_processed := false
    is_active := true, created_at := 0, updated_at := 0, search_score := none
    tags := none, metadata := none }

/-- A Source Store row fixture with the given id and source URL. -/
def testSqliteJob (n : Nat) (url : String) : SqliteJob :=
  { id := n, title := "t", company := "c", location := none, salary_min := none
    salary_max := none, salary_currency := none, salary_period := none
    description := none, requirements := none, benefits := none, job_type := none
    experience_level := none, remote_type := "remote", source_url := url
    source_platform := "p", posted_date := none, application_url := none
    company_logo := none, company_description := none, company_size := none
    company_industry := none, skills_required := none, ai_generated_summary := none
    ai_processed := none, is_active := true, created_at := 0, updated_at := 0 }

/-! ## Theorems -/

/-! ### C8: URL deduplication in the scrapers -/

theorem cleanDedupGo_sublist (seen : List String) (jobs : List RawJob) :
    (cleanDedupGo seen jobs).Sublist jobs := by
  induction jobs generalizing seen with
  | nil => simp [cleanDedupGo]
  | cons j rest ih =>
      simp only [cleanDedupGo]
      by_cases hc : (!(rawUrl j == "") && !(seen.contains (rawUrl j))) = true
      · simp only [hc, if_true]
        exact List.Sublist.cons₂ _ (ih _)
      · simp only [Bool.not_eq_true] at hc
        simp only [hc, Bool.false_eq_true, if_false]
        exact List.Sublist.cons _ (ih _)

theorem cleanDedupGo_urls (seen : List String) (jobs : List RawJob) :
    ((cleanDedupGo seen jobs).map rawUrl).Nodup
    ∧ ∀ u ∈ (cleanDedupGo seen jobs).map rawUrl, u ∉ seen ∧ u ≠ "" := by
  induction jobs generalizing seen with
  | nil => simp [cleanDedupGo]
  | cons j rest ih =>
      simp only [cleanDedupGo]
      cases hc : (!(rawUrl j == "") && !(seen.contains (rawUrl j))) with
      | false =>
          simp only [hc, Bool.false_eq_true, if_false]
          exact ih seen
      | true =>
          simp only [hc, if_true]
          have hparts := hc
          simp at hparts
          obtain ⟨hne, hnmem⟩ := hparts
          obtain ⟨ihnodup, ihrest⟩ := ih (seen ++ [rawUrl j])
          refine ⟨?_, ?_⟩
          · simp only [List.map_cons, List.nodup_cons]
            refine ⟨?_, ihnodup⟩
            intro hmem
            have := (ihrest _ hmem).1
            simp at this
          · intro u hu
            simp only [List.map_cons, List.mem_cons] at hu
            rcases hu with rfl | hu
            · exact ⟨hnmem, hne⟩
            · have := ihrest u hu
              refine ⟨fun hmem => this.1 ?_, this.2⟩
              simp [hmem]

theorem cleanDedupGo_find (u : String) (hu : u ≠ "") :
    ∀ (seen : List String) (jobs : List RawJob), u ∉ seen →
      (cleanDedupGo seen jobs).find? (fun j => rawUrl j == u)
        = jobs.find? (fun j => rawUrl j == u) := by
  intro seen jobs
  induction jobs generalizing seen with
  | nil => intro _; simp [cleanDedupGo]
  | cons j rest ih =>
      intro hseen
      simp only [cleanDedupGo]
      cases hc : (!(rawUrl j == "") && !(seen.contains (rawUrl j))) with
      | false =>
          simp only [hc, Bool.false_eq_true, if_false]
          have hparts := hc
          simp at hparts
          have hju : (rawUrl j == u) = false := by
            rw [beq_eq_false_iff_ne]
            intro hju
            have hmem : rawUrl j ∈ seen := hparts (by rw [hju]; exact hu)
            rw [hju] at hmem
            exact hseen hmem
          rw [List.find?_cons, hju]
          exact ih seen hseen
      | true =>
          simp only [hc, if_true]
          rw [List.find?_cons, List.find?_cons]
          cases hju : (rawUrl j == u) with
          | true => rfl
          | false =>
              apply ih
              simp only [List.mem_append, List.mem_singleton, not_or]
              refine ⟨hseen, ?_⟩
              intro h
              rw [h] at hju
              simp at hju

theorem cleanDedupGo_cover (seen : List String) (jobs : List RawJob) :
    ∀ j ∈ jobs, rawUrl j ≠ "" →
      rawUrl j ∈ (cleanDedupGo seen jobs).map rawUrl ∨ rawUrl j ∈ seen := by
  induction jobs generalizing seen with
  | nil => simp
  | cons j rest ih =>
      intro x hx hxne
      simp only [cleanDedupGo]
      cases hc : (!(rawUrl j == "") && !(seen.contains (rawUrl j))) with
      | false =>
          simp only [hc, Bool.false_eq_true, if_false]
          have hparts := hc
          simp at hparts
          rcases List.mem_cons.mp hx with rfl | hx
          · -- x = j; j was skipped: its url is "" (impossible) or already in seen
            exact Or.inr (hparts hxne)
          · exact ih seen x hx hxne
      | true =>
          simp only [hc, if_true, List.map_cons]
          rcases List.mem_cons.mp hx with rfl | hx
          · exact Or.inl (List.mem_cons_self _ _)
          · rcases ih (seen ++ [rawUrl j]) x hx hxne with h | h
            · exact Or.inl (List.mem_cons_of_mem _ h)
            · simp only [List.mem_append, List.mem_singleton] at h
              rcases h with h | h
              · exact Or.inr h
              · rw [h]; exact Or.inl (List.mem_cons_self _ _)

/-- C8: `clean_and_deduplicate_jobs` returns the subsequence of the input
keeping, for each distinct non-empty URL, the first job carrying it: the output
is a sublist of the input (relative order preserved), its URLs are pairwise
distinct and non-empty, the first job found for any non-empty URL agrees
between input and output, and every non-empty input URL survives. -/
theorem C8_clean_and_deduplicate (jobs : List RawJob) :
    (cleanAndDeduplicateJobs jobs).Sublist jobs
    ∧ ((cleanAndDeduplicateJobs jobs).map rawUrl).Nodup
    ∧ (∀ j ∈ cleanAndDeduplicateJobs jobs, rawUrl j ≠ "")
    ∧ (∀ u : String, u ≠ "" →
        (cleanAndDeduplicateJobs jobs).find? (fun j => rawUrl j == u)
          = jobs.find? (fun j => rawUrl j == u))
    ∧ (∀ j ∈ jobs, rawUrl j ≠ "" →
        rawUrl j ∈ (cleanAndDeduplicateJobs jobs).map rawUrl) := by
  refine ⟨cleanDedupGo_sublist [] jobs, (cleanDedupGo_urls [] jobs).1, ?_, ?_, ?_⟩
  · intro j hj
    exact ((cleanDedupGo_urls [] jobs).2 (rawUrl j) (List.mem_map_of_mem rawUrl hj)).2
  · intro u hu
    exact cleanDedupGo_find u hu [] jobs (List.not_mem_nil u)
  · intro j hj hne
    rcases cleanDedupGo_cover [] jobs j hj hne with h | h
    · exact h
    · exact absurd h (List.not_mem_nil _)

/-- Concrete instantiation of `C8_clean_and_deduplicate`: on a four-job list
with a duplicate URL and an empty URL, the first job found for URL `"a"` in
the deduplicated output is the first input job carrying `"a"`. -/
theorem C8_clean_and_deduplicate_witness :
    (cleanAndDeduplicateJobs
        [ { url := some "a", title := "t1", company := "c1", location := "", description := "" },
          { url := none, title := "t2", company := "c2", location := "", description := "" },
          { url := some "a", title := "t3", company := "c3", location := "", description := "" },
          { url := some "b", title := "t4", company := "c4", location := "", description := "" } ]).find?
        (fun j => rawUrl j == "a")
      = ([ { url := some "a", title := "t1", company := "c1", location := "", description := "" },
           { url := none, title := "t2", company := "c2", location := "", description := "" },
           { url := some "a", title := "t3", company := "c3", location := "", description := "" },
           { url := some "b", title := "t4", company := "c4", location := "", description := "" } ] :
           List RawJob).find? (fun j => rawUrl j == "a") :=
  (C8_clean_and_deduplicate _).2.2.2.1 "a" (by decide)

/-! ### C7: manual job triggering in the scheduler -/

theorem getJob_decomp (now : Nat) (i : String) (j : SchedJob) :
    ∀ s : List SchedJob, getJob s i = some j →
      ∃ l r, s = l ++ j :: r ∧ (∀ x ∈ l, x.id ≠ i) ∧ j.id = i
        ∧ modifyNextRun now i s = l ++ ({ j with next_run_time := some now } :: r) := by
  intro s
  induction s with
  | nil => intro h; simp [getJob] at h
  | cons a as ih =>
      intro h
      simp only [getJob, List.find?_cons] at h
      cases ha : (a.id == i) with
      | true =>
          rw [ha] at h
          simp only [Option.some.injEq] at h
          subst h
          refine ⟨[], as, by simp, by simp, beq_iff_eq.mp ha, ?_⟩
          simp only [modifyNextRun, ha, if_true, List.nil_append]
      | false =>
          rw [ha] at h
          obtain ⟨l, r, hs, hl, hid, hmod⟩ := ih h
          refine ⟨a :: l, r, by rw [hs]; rfl, ?_, hid, ?_⟩
          · intro x hx
            rcases List.mem_cons.mp hx with rfl | hx
            · exact fun hxi => by simp [hxi] at ha
            · exact hl x hx
          · simp only [modifyNextRun, ha, Bool.false_eq_true, if_false, List.cons_append,
              List.cons.injEq]
            exact ⟨trivial, hmod⟩

/-- C7: `trigger_job` with an existing job id returns `true` and reschedules
only that job — the job list decomposes around the (first) job with that id,
everything else is syntactically unchanged and the configured-job ids are
preserved — while an unknown id returns `false` and changes nothing. -/
theorem C7_trigger_job (now : Nat) (s : List SchedJob) (i : String) :
    (getJob s i = none → triggerJob now s i = (false, s))
    ∧ ∀ j, getJob s i = some j →
        (triggerJob now s i).1 = true
        ∧ ((triggerJob now s i).2).map SchedJob.id = s.map SchedJob.id
        ∧ ∃ l r, s = l ++ j :: r ∧ (∀ x ∈ l, x.id ≠ i)
            ∧ (triggerJob now s i).2 = l ++ ({ j with next_run_time := some now } :: r) := by
  constructor
  · intro h
    simp [triggerJob, h]
  · intro j h
    obtain ⟨l, r, hs, hl, hid, hmod⟩ := getJob_decomp now i j s h
    have htrig : triggerJob now s i = (true, modifyNextRun now i s) := by
      simp [triggerJob, h]
    refine ⟨by rw [htrig], ?_, l, r, hs, hl, by rw [htrig, hmod]⟩
    rw [htrig, hmod, hs]
    simp

/-- Concrete instantiation of `C7_trigger_job`: triggering `daily_sync` on the
five configured jobs succeeds, and triggering an unknown id changes nothing. -/
theorem C7_trigger_job_witness :
    (triggerJob 5 setupJobs "daily_sync").1 = true
    ∧ triggerJob 5 setupJobs "missing" = (false, setupJobs) :=
  ⟨(((C7_trigger_job 5 setupJobs "daily_sync").2
      { id := "daily_sync", name := "Daily SQLite to MongoDB Sync",
        next_run_time := none, trigger := "cron hour=2 minute=0" }) (by decide)).1,
   (C7_trigger_job 5 setupJobs "missing").1 (by decide)⟩

/-! ### C4 / C10: salary statistics -/

theorem specBound_of_truthy (o : Option ℚ) (h : pyTruthyRat o = true) :
    specBound o = some (o.getD 0) := by
  cases o with
  | none => simp [pyTruthyRat] at h
  | some x =>
      simp only [pyTruthyRat, Bool.not_eq_true', beq_eq_false_iff_ne, ne_eq] at h
      simp [specBound, h]

theorem specBound_of_falsy (o : Option ℚ) (h : pyTruthyRat o = false) :
    specBound o = none := by
  cases o with
  | none => rfl
  | some x =>
      simp only [pyTruthyRat, Bool.not_eq_false', beq_iff_eq] at h
      simp [specBound, h]

theorem salaryValues_eq_filterMap (jobs : List JobFields) :
    salaryValues jobs = jobs.filterMap specSalaryContribution := by
  induction jobs with
  | nil => rfl
  | cons j rest ih =>
      rw [List.filterMap_cons]
      cases hmin : pyTruthyRat j.salary_min with
      | true =>
          cases hmax : pyTruthyRat j.salary_max with
          | true =>
              simp [salaryValues, hmin, hmax, specSalaryContribution,
                specBound_of_truthy _ hmin, specBound_of_truthy _ hmax, ih]
          | false =>
              simp [salaryValues, hmin, hmax, specSalaryContribution,
                specBound_of_truthy _ hmin, specBound_of_falsy _ hmax, ih]
      | false =>
          cases hmax : pyTruthyRat j.salary_max with
          | true =>
              simp [salaryValues, hmin, hmax, specSalaryContribution,
                specBound_of_falsy _ hmin, specBound_of_truthy _ hmax, ih]
          | false =>
              simp [salaryValues, hmin, hmax, specSalaryContribution,
                specBound_of_falsy _ hmin, specBound_of_falsy _ hmax, ih]

theorem stableInsert_perm (le : α → α → Bool) (x : α) (l : List α) :
    (stableInsert le x l).Perm (x :: l) := by
  induction l with
  | nil => simp [stableInsert]
  | cons y ys ih =>
      simp only [stableInsert]
      by_cases h : le x y = true
      · simp [h]
      · simp only [h, if_false]
        exact ((ih.cons y).trans (List.Perm.swap x y ys))

theorem stableSortBy_perm (le : α → α → Bool) (l : List α) :
    (stableSortBy le l).Perm l := by
  induction l with
  | nil => simp [stableSortBy]
  | cons x xs ih =>
      exact (stableInsert_perm le x (stableSortBy le xs)).trans (ih.cons x)

theorem sortRat_length (l : List ℚ) : (sortRat l).length = l.length :=
  (stableSortBy_perm _ l).length_eq

theorem sortRat_sum (l : List ℚ) : (sortRat l).sum = l.sum :=
  (stableSortBy_perm _ l).sum_eq

theorem length_filterMap_eq_countP (f : α → Option β) (l : List α) :
    (l.filterMap f).length = l.countP (fun a => (f a).isSome) := by
  induction l with
  | nil => rfl
  | cons a as ih =>
      rw [List.filterMap_cons, List.countP_cons]
      cases h : f a <;> simp [h, ih]

/-- C4: the salary statistics include exactly one value per job with a present
salary bound — the midpoint of both bounds, or the single present bound (a job
with only `salary_min` contributes `salary_min`, never zero) — exclude jobs
with no present bound, and report `count` = number of included jobs and
`average` = sum of included values / count.  (A bound is present when it is
non-null and non-zero; see C10.) -/
theorem C4_salary_stats (jobs : List JobFields) :
    salaryValues jobs = jobs.filterMap specSalaryContribution
    ∧ (calcSalaryStats jobs).count
        = jobs.countP (fun j => (specSalaryContribution j).isSome)
    ∧ (jobs.filterMap specSalaryContribution ≠ [] →
        (calcSalaryStats jobs).average
          = (jobs.filterMap specSalaryContribution).sum
            / (jobs.countP (fun j => (specSalaryContribution j).isSome) : ℚ)) := by
  have hval := salaryValues_eq_filterMap jobs
  refine ⟨hval, ?_, ?_⟩
  · rw [calcSalaryStats, ← length_filterMap_eq_countP, ← hval]
    by_cases h : (salaryValues jobs).isEmpty
    · simp only [h, if_true]
      rw [List.isEmpty_iff] at h
      simp [h]
    · simp only [h, Bool.false_eq_true, if_false]
      exact sortRat_length _
  · intro hne
    rw [← hval] at hne ⊢
    rw [calcSalaryStats, ← length_filterMap_eq_countP, ← hval]
    have h : (salaryValues jobs).isEmpty = false := by
      cases hs : salaryValues jobs with
      | nil => exact absurd hs hne
      | cons a l => simp
    simp only [h, Bool.false_eq_true, if_false]
    rw [sortRat_length, sortRat_sum]

/-- Concrete instantiation of `C4_salary_stats`: a midpoint job and a
min-only job yield `average = (150000 + 50000) / 2`. -/
theorem C4_salary_stats_witness :
    (calcSalaryStats [testJob (some 100000) (some 200000), testJob (some 50000) none]).average
      = ([testJob (some 100000) (some 200000), testJob (some 50000) none].filterMap
          specSalaryContribution).sum
        / (([testJob (some 100000) (some 200000), testJob (some 50000) none].countP
            (fun j => (specSalaryContribution j).isSome)) : ℚ) :=
  (C4_salary_stats _).2.2 (by decide)

theorem salaryValues_map_clearZero (jobs : List JobFields) :
    salaryValues (jobs.map clearZeroBounds) = salaryValues jobs := by
  induction jobs with
  | nil => rfl
  | cons j rest ih =>
      have hmin : (clearZeroBounds j).salary_min = specBound j.salary_min := rfl
      have hmax : (clearZeroBounds j).salary_max = specBound j.salary_max := rfl
      rw [List.map_cons]
      have htb : ∀ o : Option ℚ, pyTruthyRat (specBound o) = pyTruthyRat o := by
        intro o
        cases ho : pyTruthyRat o with
        | true => rw [specBound_of_truthy _ ho]; cases o with
            | none => simp [pyTruthyRat] at ho
            | some x => simpa [pyTruthyRat] using ho
        | false => rw [specBound_of_falsy _ ho]; rfl
      have hgd : ∀ o : Option ℚ, pyTruthyRat o = true → (specBound o).getD 0 = o.getD 0 := by
        intro o ho
        rw [specBound_of_truthy _ ho]
        rfl
      cases h1 : pyTruthyRat j.salary_min with
      | true =>
          cases h2 : pyTruthyRat j.salary_max with
          | true =>
              simp [salaryValues, hmin, hmax, htb, h1, h2, hgd _ h1, hgd _ h2, ih]
          | false =>
              simp [salaryValues, hmin, hmax, htb, h1, h2, hgd _ h1, ih]
      | false =>
          cases h2 : pyTruthyRat j.salary_max with
          | true =>
              simp [salaryValues, hmin, hmax, htb, h1, h2, hgd _ h2, ih]
          | false =>
              simp [salaryValues, hmin, hmax, htb, h1, h2, ih]

/-- C10: a salary bound equal to `0` is treated as absent throughout the
salary statistics: clearing zero bounds changes nothing; a job with
`salary_min = 0` and a non-zero `salary_max = x` contributes `x` (not the
midpoint `x / 2`); and a job whose only present bound is `0` contributes
nothing at all to any of the statistics. -/
theorem C10_zero_bound_absent :
    (∀ jobs : List JobFields,
        calcSalaryStats (jobs.map clearZeroBounds) = calcSalaryStats jobs)
    ∧ (∀ (j : JobFields) (rest : List JobFields) (x : ℚ),
        j.salary_min = some 0 → j.salary_max = some x → x ≠ 0 →
        salaryValues (j :: rest) = x :: salaryValues rest)
    ∧ (∀ (j : JobFields) (rest : List JobFields),
        j.salary_min = some 0 → (j.salary_max = none ∨ j.salary_max = some 0) →
        salaryValues (j :: rest) = salaryValues rest)
    ∧ (∀ (j : JobFields) (rest : List JobFields),
        j.salary_min = none → j.salary_max = some 0 →
        salaryValues (j :: rest) = salaryValues rest) := by
  refine ⟨?_, ?_, ?_, ?_⟩
  · intro jobs
    rw [calcSalaryStats, calcSalaryStats, salaryValues_map_clearZero]
  · intro j rest x hmin hmax hx
    simp [salaryValues, hmin, hmax, pyTruthyRat, hx]
  · intro j rest hmin hmax
    rcases hmax with hmax | hmax <;> simp [salaryValues, hmin, hmax, pyTruthyRat]
  · intro j rest hmin hmax
    simp [salaryValues, hmin, hmax, pyTruthyRat]

/-- Concrete instantiation of `C10_zero_bound_absent`: a `salary_min = 0`,
`salary_max = 120000` job contributes `120000`, and a job whose only bound is
`0` is dropped. -/
theorem C10_zero_bound_absent_witness :
    salaryValues [testJob (some 0) (some 120000)] = [120000]
    ∧ salaryValues [testJob (some 0) none] = [] :=
  ⟨C10_zero_bound_absent.2.1 _ [] 120000 rfl rfl (by norm_num),
   C10_zero_bound_absent.2.2.1 _ [] rfl (Or.inl rfl)⟩

/-! ### C3: sync counters and partial-failure semantics -/

theorem listChunks_join_aux (n : Nat) (hn : 0 < n) :
    ∀ (k : Nat) (xs : List α), xs.length ≤ k → (listChunks n xs).flatten = xs := by
  intro k
  induction k with
  | zero =>
      intro xs h
      have hx : xs = [] := List.length_eq_zero.mp (Nat.le_zero.mp h)
      subst hx
      simp [listChunks]
  | succ k ih =>
      intro xs h
      cases xs with
      | nil => simp [listChunks]
      | cons x rest =>
          cases n with
          | zero => omega
          | succ m =>
              rw [listChunks]
              rw [List.flatten_cons]
              rw [ih (((x :: rest)).drop (m + 1))
                (by simp only [List.length_cons] at h
                    simp only [List.length_drop, List.length_cons]
                    omega)]
              exact List.take_append_drop _ _

theorem listChunks_join (n : Nat) (hn : 0 < n) (xs : List α) :
    (listChunks n xs).flatten = xs :=
  listChunks_join_aux n hn xs.length xs le_rfl

/-- Batch slicing visits exactly the row list, in order. -/
theorem syncRun_eq_foldl (now : Nat) (raises : SqliteJob → Bool) (batchSize : Nat)
    (hn : 0 < batchSize) (jobs : List SqliteJob) (store : List StoredDoc)
    (supply : Nat) :
    syncSqliteToMongodb now raises batchSize jobs store supply
      = jobs.foldl (syncStep now raises)
          { store := store, oidSupply := supply, synced := 0, updated := 0, errors := 0 } := by
  rw [syncSqliteToMongodb, ← List.foldl_flatten, listChunks_join batchSize hn]

theorem syncStep_counts (now : Nat) (raises : SqliteJob → Bool) (st : SyncState)
    (j : SqliteJob) :
    ((syncStep now raises st j).synced + (syncStep now raises st j).updated
        + (syncStep now raises st j).errors
      = st.synced + st.updated + st.errors + 1)
    ∧ (syncStep now raises st j).errors
        = st.errors + (if raises j = true then 1 else 0) := by
  cases hr : raises j with
  | true =>
      refine ⟨?_, ?_⟩ <;> simp [syncStep, hr] <;> omega
  | false =>
      cases hf : findByUrl j.source_url st.store <;>
        (refine ⟨?_, ?_⟩ <;> simp [syncStep, hr, hf] <;> omega)

theorem syncFold_counts (now : Nat) (raises : SqliteJob → Bool) :
    ∀ (jobs : List SqliteJob) (st : SyncState),
      ((jobs.foldl (syncStep now raises) st).synced
          + (jobs.foldl (syncStep now raises) st).updated
          + (jobs.foldl (syncStep now raises) st).errors
        = st.synced + st.updated + st.errors + jobs.length)
      ∧ (jobs.foldl (syncStep now raises) st).errors
          = st.errors + jobs.countP raises := by
  intro jobs
  induction jobs with
  | nil => intro st; simp
  | cons j rest ih =>
      intro st
      rw [List.foldl_cons]
      obtain ⟨ih1, ih2⟩ := ih (syncStep now raises st j)
      obtain ⟨hs1, hs2⟩ := syncStep_counts now raises st j
      refine ⟨?_, ?_⟩
      · rw [ih1, List.length_cons]
        omega
      · rw [ih2, hs2, List.countP_cons]
        cases hr : raises j <;> simp <;> omega

/-- C3: for every row list — including rows whose per-record conversion or
write raises, captured by the `raises` oracle — the returned counters satisfy
`synced + updated + errors = number of rows`, a raising row is counted only in
`errors`, and the remaining rows are still processed (the error count is
exactly the number of raising rows, independent of their positions). -/
theorem C3_sync_counts_partition (now : Nat) (raises : SqliteJob → Bool)
    (batchSize : Nat) (hn : 0 < batchSize) (jobs : List SqliteJob)
    (store : List StoredDoc) (supply : Nat) :
    (syncSqliteToMongodb now raises batchSize jobs store supply).synced
        + (syncSqliteToMongodb now raises batchSize jobs store supply).updated
        + (syncSqliteToMongodb now raises batchSize jobs store supply).errors
      = jobs.length
    ∧ (syncSqliteToMongodb now raises batchSize jobs store supply).errors
        = jobs.countP raises := by
  rw [syncRun_eq_foldl now raises batchSize hn jobs store supply]
  obtain ⟨h1, h2⟩ := syncFold_counts now raises jobs
    { store := store, oidSupply := supply, synced := 0, updated := 0, errors := 0 }
  exact ⟨h1.trans (by simp), h2.trans (by simp)⟩

/-- Concrete instantiation of `C3_sync_counts_partition`: three rows, one of
which raises, yield counters summing to 3 with exactly one error. -/
theorem C3_sync_counts_partition_witness :
    (syncSqliteToMongodb 7 (fun j => j.id == 2) 100
        [testSqliteJob 1 "a", testSqliteJob 2 "b", testSqliteJob 3 "c"] [] 0).synced
      + (syncSqliteToMongodb 7 (fun j => j.id == 2) 100
        [testSqliteJob 1 "a", testSqliteJob 2 "b", testSqliteJob 3 "c"] [] 0).updated
      + (syncSqliteToMongodb 7 (fun j => j.id == 2) 100
        [testSqliteJob 1 "a", testSqliteJob 2 "b", testSqliteJob 3 "c"] [] 0).errors
      = 3 :=
  (C3_sync_counts_partition 7 (fun j => j.id == 2) 100 (by decide)
    [testSqliteJob 1 "a", testSqliteJob 2 "b", testSqliteJob 3 "c"] [] 0).1

/-! ### C9: month-crossing date ranges empty out `list_snapshots` -/

theorem dateLe_crossing (e : Date) (y m d : Nat)
    (h : y < e.year ∨ (y = e.year ∧ m < e.month)) : dateLe ⟨y, m, d⟩ e = true := by
  simp only [dateLe, Bool.or_eq_true, Bool.and_eq_true, decide_eq_true_eq, beq_iff_eq]
  rcases h with h | ⟨h1, h2⟩
  · exact Or.inl h
  · exact Or.inr ⟨h1, Or.inl h2⟩

theorem dateRangeGo_error (e : Date) (y m : Nat)
    (hcross : y < e.year ∨ (y = e.year ∧ m < e.month)) :
    ∀ (k d : Nat), daysInMonth y m + 1 - d ≤ k → dateRangeGo e y m d = .error () := by
  intro k
  induction k with
  | zero =>
      intro d hd
      rw [dateRangeGo]
      have hval : dateValid y m (d + 1) = false := by
        have hlt : ¬(d + 1 ≤ daysInMonth y m) := by omega
        simp [dateValid, hlt]
      rw [dateLe_crossing e y m d hcross, if_pos rfl, hval]
      simp
  | succ k ih =>
      intro d hd
      rw [dateRangeGo]
      rw [dateLe_crossing e y m d hcross, if_pos rfl]
      cases hv : dateValid y m (d + 1) with
      | true =>
          have hmeas : daysInMonth y m + 1 - (d + 1) ≤ k := by
            have : d + 1 ≤ daysInMonth y m := by
              have := hv
              simp only [dateValid, Bool.and_eq_true, decide_eq_true_eq] at this
              exact this.2
            omega
          rw [ih (d + 1) hmeas]
          simp
      | false => simp

/-- C9: for every snapshot store and every pair of valid calendar dates with
`start ≤ end` whose traversal must cross a month boundary (different month or
year), `list_snapshots` returns `[]` — the generator's
`date(year, month, day + 1)` raises `ValueError` at the end of the start
month, and the handler swallows the exception, discarding everything collected
— and, being a total function here, it never propagates the error. -/
theorem C9_list_snapshots_month_boundary (lake : Date → List String) (s e : Date)
    (hs : dateValid s.year s.month s.day = true)
    (he : dateValid e.year e.month e.day = true)
    (hle : dateLe s e = true)
    (hcross : s.year ≠ e.year ∨ s.month ≠ e.month) :
    listSnapshots lake s e = [] := by
  have hdir : s.year < e.year ∨ (s.year = e.year ∧ s.month < e.month) := by
    simp only [dateLe, Bool.or_eq_true, Bool.and_eq_true, decide_eq_true_eq,
      beq_iff_eq] at hle
    rcases hle with h | ⟨h1, h⟩
    · exact Or.inl h
    · rcases h with h | ⟨h2, _⟩
      · exact Or.inr ⟨h1, h⟩
      · rcases hcross with hc | hc
        · exact absurd h1 hc
        · exact absurd h2 hc
  rw [listSnapshots, dateRange,
    dateRangeGo_error e s.year s.month hdir (daysInMonth s.year s.month + 1) s.day
      (by omega)]

/-- Concrete instantiation of `C9_list_snapshots_month_boundary`: listing from
2024-01-31 to 2024-02-01 over a lake that has a key on every day still returns
the empty list. -/
theorem C9_list_snapshots_month_boundary_witness :
    listSnapshots (fun _ => ["jobs/year=2024/month=01/day=31/f.json.gz"])
      ⟨2024, 1, 31⟩ ⟨2024, 2, 1⟩ = [] :=
  C9_list_snapshots_month_boundary _ ⟨2024, 1, 31⟩ ⟨2024, 2, 1⟩
    (by decide) (by decide) (by decide) (by decide)

/-! ### C5: snapshot retrieval selects the most recent write -/

theorem listLeads_append (l rest : List Char) : listLeads l (l ++ rest) = true := by
  induction l with
  | nil => rfl
  | cons a as ih => simp [listLeads, ih]

theorem globMatch_snapshotFileName (dtype : String) (clock : Nat) :
    globMatch dtype (snapshotFileName dtype clock) = true := by
  have hdata : (snapshotFileName dtype clock).toList
      = (dtype ++ "_snapshot_").toList ++ ((toString clock).toList ++ ".json.gz".toList) := by
    simp [snapshotFileName, String.toList, String.data_append, List.append_assoc]
  rw [globMatch, Bool.and_eq_true]
  refine ⟨?_, ?_⟩
  · rw [hdata]
    exact listLeads_append _ _
  · rw [strEnds, hdata]
    rw [List.reverse_append, List.reverse_append, List.append_assoc]
    exact listLeads_append _ _

theorem foldlMax_reach :
    ∀ (rest : List FileEntry) (acc f : FileEntry),
      (∀ g ∈ rest, g = f ∨ g.mtime < f.mtime) →
      (acc = f ∨ (acc.mtime < f.mtime ∧ f ∈ rest)) →
      rest.foldl (fun acc g => if g.mtime > acc.mtime then g else acc) acc = f := by
  intro rest
  induction rest with
  | nil =>
      intro acc f _ hacc
      rcases hacc with rfl | ⟨_, hmem⟩
      · rfl
      · exact absurd hmem (List.not_mem_nil f)
  | cons g gs ih =>
      intro acc f hall hacc
      rw [List.foldl_cons]
      rcases hacc with rfl | ⟨hlt, hmem⟩
      · have hg : g = acc ∨ g.mtime < acc.mtime := hall g (List.mem_cons_self g gs)
        have hstep : (if g.mtime > acc.mtime then g else acc) = acc := by
          rcases hg with rfl | hg
          · simp
          · simp [Nat.not_lt.mpr (Nat.le_of_lt hg)]
        rw [hstep]
        exact ih acc acc (fun x hx => hall x (List.mem_cons_of_mem g hx)) (Or.inl rfl)
      · by_cases hgf : g = f
        · subst hgf
          have hstep : (if g.mtime > acc.mtime then g else acc) = g := by simp [hlt]
          rw [hstep]
          exact ih g g (fun x hx => hall x (List.mem_cons_of_mem g hx)) (Or.inl rfl)
        · have hg : g.mtime < f.mtime := by
            rcases hall g (List.mem_cons_self g gs) with h | h
            · exact absurd h hgf
            · exact h
          have hfmem : f ∈ gs := by
            rcases List.mem_cons.mp hmem with rfl | h
            · exact absurd rfl hgf
            · exact h
          have hnext : (if g.mtime > acc.mtime then g else acc) = f
              ∨ ((if g.mtime > acc.mtime then g else acc).mtime < f.mtime ∧ f ∈ gs) := by
            right
            constructor
            · by_cases h : g.mtime > acc.mtime <;> simp [h, hg, hlt]
            · exact hfmem
          exact ih _ f (fun x hx => hall x (List.mem_cons_of_mem g hx)) hnext

theorem pyMaxByMtime_unique (l : List FileEntry) (f : FileEntry)
    (hmem : f ∈ l) (hother : ∀ g ∈ l, g = f ∨ g.mtime < f.mtime) :
    pyMaxByMtime l = some f := by
  cases l with
  | nil => exact absurd hmem (List.not_mem_nil f)
  | cons a rest =>
      rw [pyMaxByMtime, Option.some_inj]
      apply foldlMax_reach rest a f (fun x hx => hother x (List.mem_cons_of_mem a hx))
      by_cases haf : a = f
      · exact Or.inl haf
      · right
        refine ⟨?_, ?_⟩
        · rcases hother a (List.mem_cons_self a rest) with h | h
          · exact absurd h haf
          · exact h
        · rcases List.mem_cons.mp hmem with rfl | h
          · exact absurd rfl haf
          · exact h

/-- C5: when the write clock has advanced past every existing file's mtime,
retrieving right after a store returns exactly the stored snapshot content —
even with older time-suffixed snapshots in the same daily partition — and
retrieving from a partition with no snapshots returns nothing. -/
theorem C5_retrieve_daily_snapshot (clock : Nat) (dtype : String)
    (data : List JobFields) (target : Date) (files : List FileEntry)
    (hmt : ∀ f ∈ files, f.mtime < clock) :
    retrieveDailySnapshot dtype (storeDailySnapshot clock dtype data target files)
      = some { snapshot_date := target, created_at := clock, data_type := dtype,
               record_count := data.length, data := data }
    ∧ retrieveDailySnapshot dtype ([] : List FileEntry) = none := by
  refine ⟨?_, rfl⟩
  set newf : FileEntry :=
    { name := snapshotFileName dtype clock, mtime := clock,
      content := { snapshot_date := target, created_at := clock, data_type := dtype,
                   record_count := data.length, data := data } } with hnewf
  have hform : storeDailySnapshot clock dtype data target files
      = writeFileEntry files newf := rfl
  have hmem : newf ∈ writeFileEntry files newf ∧
      ∀ g ∈ writeFileEntry files newf, g = newf ∨ g.mtime < clock := by
    by_cases hany : files.any (fun g => g.name == newf.name) = true
    · rw [writeFileEntry, if_pos hany]
      obtain ⟨p, hp, hpname⟩ := List.any_eq_true.mp hany
      constructor
      · exact List.mem_map.mpr ⟨p, hp, by simp [hpname]⟩
      · intro g hg
        obtain ⟨q, hq, hqe⟩ := List.mem_map.mp hg
        by_cases hqn : (q.name == newf.name) = true
        · left; rw [← hqe]; simp [hqn]
        · right
          rw [← hqe]
          simp only [hqn, Bool.false_eq_true, if_false]
          exact hmt q hq
    · rw [writeFileEntry, if_neg hany]
      constructor
      · exact List.mem_append_right _ (List.mem_singleton.mpr rfl)
      · intro g hg
        rcases List.mem_append.mp hg with hg | hg
        · exact Or.inr (hmt g hg)
        · exact Or.inl (List.mem_singleton.mp hg)
  rw [hform, retrieveDailySnapshot]
  have hmemM : newf ∈ (writeFileEntry files newf).filter (fun f => globMatch dtype f.name) :=
    List.mem_filter.mpr ⟨hmem.1, globMatch_snapshotFileName dtype clock⟩
  have hotherM : ∀ g ∈ (writeFileEntry files newf).filter (fun f => globMatch dtype f.name),
      g = newf ∨ g.mtime < newf.mtime := by
    intro g hg
    exact hmem.2 g (List.mem_of_mem_filter hg)
  rw [pyMaxByMtime_unique _ newf hmemM hotherM]

/-- Concrete instantiation of `C5_retrieve_daily_snapshot`: after snapshots at
clocks 1 and 2 in the same partition, retrieval returns the clock-2 content. -/
theorem C5_retrieve_daily_snapshot_witness :
    retrieveDailySnapshot "jobs"
        (storeDailySnapshot 2 "jobs" [] ⟨2024, 3, 14⟩
          (storeDailySnapshot 1 "jobs" [testJob none none] ⟨2024, 3, 14⟩ []))
      = some { snapshot_date := ⟨2024, 3, 14⟩, created_at := 2, data_type := "jobs",
               record_count := 0, data := [] } :=
  (C5_retrieve_daily_snapshot 2 "jobs" [] ⟨2024, 3, 14⟩
    (storeDailySnapshot 1 "jobs" [testJob none none] ⟨2024, 3, 14⟩ [])
    (by decide)).1

/-! ### C2: analytics generation appends rather than overwrites -/

/-- C2 counterexample: starting from an empty `analytics` collection, two
`generate_analytics_metrics` runs for the same target date (even at the same
clock reading) leave two `daily_metrics` documents, not one — `insert_one`
appends and nothing overwrites. -/
theorem C2_analytics_counterexample :
    countDailyMetrics
        (generateAnalyticsMetrics 0 1 ⟨2024, 1, 15⟩ []
          (generateAnalyticsMetrics 0 0 ⟨2024, 1, 15⟩ [] [] []).lake
          (generateAnalyticsMetrics 0 0 ⟨2024, 1, 15⟩ [] [] []).collection).collection = 2
    ∧ countDailyMetrics
        (generateAnalyticsMetrics 0 1 ⟨2024, 1, 15⟩ []
          (generateAnalyticsMetrics 0 0 ⟨2024, 1, 15⟩ [] [] []).lake
          (generateAnalyticsMetrics 0 0 ⟨2024, 1, 15⟩ [] [] []).collection).collection ≠ 1 := by
  constructor
  · rfl
  · decide

/-- C2 (amended): each `generate_analytics_metrics` call appends exactly one
`daily_metrics` document to the `analytics` collection, so two runs for the
same target date leave two more such documents than before — the second
generation duplicates rather than overwrites. -/
theorem C2_analytics_appends (now1 now2 oid1 oid2 : Nat) (d : Date)
    (jobsStore : List StoredDoc) (lake : List AnalyticsLakeEntry)
    (analytics : List AnalyticsDoc) :
    countDailyMetrics
        (generateAnalyticsMetrics now2 oid2 d jobsStore
          (generateAnalyticsMetrics now1 oid1 d jobsStore lake analytics).lake
          (generateAnalyticsMetrics now1 oid1 d jobsStore lake analytics).collection).collection
      = countDailyMetrics analytics + 2 := by
  simp [generateAnalyticsMetrics, countDailyMetrics, List.filter_append]

/-! ### C6: URL uniqueness in ingestion -/

/-- The URLs of the `jobs` table rows, empty URLs excluded. -/
def nonEmptyUrls (db : List DbRow) : List String :=
  (db.map (fun row => row.url)).filter (fun u => !(u == ""))

/-- C6 counterexample: two jobs without a `url` key both pass the existence
check (`job_exists_by_url` returns `False` for a falsy URL without querying) and
are both inserted, leaving two rows with the same URL `""` in an initially
duplicate-free (empty) table. -/
theorem C6_url_uniqueness_counterexample :
    ((insertJobsIntoDb 0 "RemoteOK" (fun _ => true) (fun _ => false) []
        [some { url := none, title := "a", company := "c", location := "", description := "" },
         some { url := none, title := "b", company := "c", location := "", description := "" }]).db.map
      (fun row => row.url)) = ["", ""]
    ∧ ¬ ((insertJobsIntoDb 0 "RemoteOK" (fun _ => true) (fun _ => false) []
        [some { url := none, title := "a", company := "c", location := "", description := "" },
         some { url := none, title := "b", company := "c", location := "", description := "" }]).db.map
      (fun row => row.url)).Nodup := by
  constructor
  · rfl
  · decide

theorem insertJobsStep_preserves (now : Nat) (platform : String)
    (validate raises : RawJob → Bool) (st : IngestState) (job : Option RawJob)
    (h : (nonEmptyUrls st.db).Nodup) :
    (nonEmptyUrls (insertJobsStep now platform validate raises st job).db).Nodup := by
  cases job with
  | none => exact h
  | some j =>
      rw [insertJobsStep]
      cases hr : raises j with
      | true => exact h
      | false =>
          simp only [Bool.false_eq_true, if_false]
          cases hv : validate j with
          | false => simpa using h
          | true =>
              simp only [hv, Bool.not_true, Bool.false_eq_true, if_false]
              cases hex : jobExistsByUrl st.db (transformJobData now platform j).url with
              | true => simpa using h
              | false =>
                  simp only [Bool.false_eq_true, if_false]
                  set t := transformJobData now platform j with ht
                  show (nonEmptyUrls (st.db ++ [t])).Nodup
                  rw [nonEmptyUrls, List.map_append, List.filter_append]
                  by_cases hurl : (t.url == "") = true
                  · simp only [List.map_cons, List.map_nil, List.filter_cons, hurl,
                      Bool.not_true, Bool.false_eq_true, if_false, List.filter_nil,
                      List.append_nil]
                    exact h
                  · have hne : (!(t.url == "")) = true := by simp [hurl]
                    simp only [List.map_cons, List.map_nil, List.filter_cons, hne, if_pos,
                      List.filter_nil]
                    rw [List.nodup_append]
                    refine ⟨h, List.nodup_singleton _, ?_⟩
                    intro u hu hu2
                    have hu1 : u = t.url := by
                      rcases List.mem_singleton.mp hu2 with rfl
                      rfl
                    subst hu1
                    have hmem : t.url ∈ st.db.map (fun row => row.url) :=
                      List.mem_of_mem_filter hu
                    obtain ⟨row, hrow, hrowurl⟩ := List.mem_map.mp hmem
                    have : jobExistsByUrl st.db t.url = true := by
                      rw [jobExistsByUrl, if_neg (by simp_all)]
                      simp only [decide_eq_true_eq]
                      have : List.countP (fun r => r.url == t.url) st.db ≠ 0 := by
                        intro hzero
                        have := (List.countP_eq_zero.mp hzero) row hrow
                        simp [hrowurl] at this
                      omega
                    rw [this] at hex
                    exact absurd hex (by simp)

/-- C6 (amended): ingestion preserves uniqueness of *non-empty* URLs — a job
whose non-empty URL already exists in the table is skipped (table unchanged,
`skipped` incremented, nothing inserted) — but a job with an empty or missing
URL bypasses `job_exists_by_url`, so rows with URL `""` can be duplicated
(see the counterexample). -/
theorem C6_url_uniqueness_amended (now : Nat) (platform : String)
    (validate raises : RawJob → Bool) (db : List DbRow) (jobs : List (Option RawJob))
    (h : (nonEmptyUrls db).Nodup) :
    (nonEmptyUrls (insertJobsIntoDb now platform validate raises db jobs).db).Nodup
    ∧ (∀ (st : IngestState) (j : RawJob), raises j = false → validate j = true →
        jobExistsByUrl st.db (transformJobData now platform j).url = true →
        insertJobsStep now platform validate raises st (some j)
          = { st with skipped := st.skipped + 1 }) := by
  constructor
  · rw [insertJobsIntoDb]
    by_cases hj : jobs.isEmpty
    · simp only [hj, if_pos]
      exact h
    · simp only [hj, Bool.false_eq_true, if_false]
      suffices hgen : ∀ (js : List (Option RawJob)) (st : IngestState),
          (nonEmptyUrls st.db).Nodup →
          (nonEmptyUrls (js.foldl (insertJobsStep now platform validate raises) st).db).Nodup by
        exact hgen jobs { db := db, imported := 0, skipped := 0 } h
      intro js
      induction js with
      | nil => intro st hst; exact hst
      | cons a as ih =>
          intro st hst
          rw [List.foldl_cons]
          exact ih _ (insertJobsStep_preserves now platform validate raises st a hst)
  · intro st j hr hv hex
    rw [insertJobsStep]
    rw [hr]
    simp only [Bool.false_eq_true, if_false, hv, Bool.not_true]
    rw [hex]
    simp

/-- Concrete instantiation of `C6_url_uniqueness_amended`: ingesting a
duplicate of URL `"x"` and a fresh URL `"y"` into a table holding `"x"` keeps
the non-empty URLs pairwise distinct. -/
theorem C6_url_uniqueness_amended_witness :
    (nonEmptyUrls (insertJobsIntoDb 3 "RemoteOK" (fun _ => true) (fun _ => false)
        [{ title := "t0", company := "c0", location := "", url := "x",
           description := "", source_platform := "RemoteOK", created_at := 0 }]
        [some { url := some "x", title := "a", company := "c", location := "", description := "" },
         some { url := some "y", title := "b", company := "c", location := "", description := "" }]).db).Nodup :=
  (C6_url_uniqueness_amended 3 "RemoteOK" (fun _ => true) (fun _ => false)
    [{ title := "t0", company := "c0", location := "", url := "x",
       description := "", source_platform := "RemoteOK", created_at := 0 }]
    [some { url := some "x", title := "a", company := "c", location := "", description := "" },
     some { url := some "y", title := "b", company := "c", location := "", description := "" }]
    (by decide)).1

/-! ### C1: double sync and the `metadata.sync_date` restamp -/

theorem convert_source_url (t : Nat) (j : SqliteJob) :
    (convertSqliteToMongodb t j).source_url = j.source_url := rfl

theorem eraseSync_convert (t t' : Nat) (j : SqliteJob) :
    eraseSyncFields (convertSqliteToMongodb t j)
      = eraseSyncFields (convertSqliteToMongodb t' j) := rfl

theorem findFields_updateFirst_same (url : String) (f : JobFields)
    (hf : f.source_url = url) :
    ∀ store : List StoredDoc, url ∈ storeUrls store →
      findFields url (updateFirstDoc url f store) = some f := by
  intro store
  induction store with
  | nil => intro h; exact absurd h (List.not_mem_nil url)
  | cons d ds ih =>
      intro hmem
      rw [updateFirstDoc]
      cases hd : (d.fields.source_url == url) with
      | true =>
          simp only [hd, if_true]
          rw [findFields, findByUrl, List.find?_cons]
          have : (({ d with fields := f } : StoredDoc).fields.source_url == url) = true := by
            simp [hf]
          rw [this]
          rfl
      | false =>
          simp only [hd, Bool.false_eq_true, if_false]
          have hmem' : url ∈ storeUrls ds := by
            rcases List.mem_cons.mp hmem with h | h
            · rw [beq_eq_false_iff_ne] at hd
              exact absurd h.symm hd
            · exact h
          rw [findFields, findByUrl, List.find?_cons, hd]
          exact ih hmem'

theorem findByUrl_updateFirst_other (u url' : String) (f : JobFields)
    (hne : url' ≠ u) (hf : f.source_url = url') :
    ∀ store : List StoredDoc,
      findByUrl u (updateFirstDoc url' f store) = findByUrl u store := by
  intro store
  induction store with
  | nil => rfl
  | cons d ds ih =>
      rw [updateFirstDoc]
      cases hd : (d.fields.source_url == url') with
      | true =>
          simp only [hd, if_true]
          rw [findByUrl, List.find?_cons]
          have h1 : (({ d with fields := f } : StoredDoc).fields.source_url == u) = false := by
            simp only
            rw [hf, beq_eq_false_iff_ne]
            exact hne
          have h2 : (d.fields.source_url == u) = false := by
            rw [beq_iff_eq] at hd
            rw [hd, beq_eq_false_iff_ne]
            exact hne
          rw [h1, findByUrl, List.find?_cons, h2]
      | false =>
          simp only [hd, Bool.false_eq_true, if_false]
          rw [findByUrl, List.find?_cons, findByUrl, List.find?_cons]
          cases hdu : (d.fields.source_url == u) with
          | true => rfl
          | false => exact ih

theorem syncStep_preserves_other (t : Nat) (st : SyncState) (j : SqliteJob)
    (u : String) (hne : j.source_url ≠ u) :
    findByUrl u (syncStep t noRaise st j).store = findByUrl u st.store := by
  rw [syncStep]
  simp only [noRaise, Bool.false_eq_true, if_false]
  cases hf : findByUrl j.source_url st.store with
  | some d =>
      simp only
      exact findByUrl_updateFirst_other u j.source_url _ hne (convert_source_url t j) st.store
  | none =>
      simp only
      rw [findByUrl, List.find?_append]
      have : List.find? (fun d => d.fields.source_url == u)
          [({ oid := st.oidSupply, fields := convertSqliteToMongodb t j } : StoredDoc)] = none := by
        rw [List.find?_eq_none]
        intro x hx
        rcases List.mem_singleton.mp hx with rfl
        simp only [convert_source_url]
        simp [hne]
      rw [this, Option.or_none]
      rfl

theorem syncStep_self_find (t : Nat) (st : SyncState) (j : SqliteJob) :
    findFields j.source_url (syncStep t noRaise st j).store
      = some (convertSqliteToMongodb t j) := by
  rw [syncStep]
  simp only [noRaise, Bool.false_eq_true, if_false]
  cases hf : findByUrl j.source_url st.store with
  | some d =>
      simp only
      have hmem : j.source_url ∈ storeUrls st.store := by
        have hd := List.mem_of_find?_eq_some hf
        have hp := List.find?_some hf
        simp only [beq_iff_eq] at hp
        rw [storeUrls]
        exact List.mem_map.mpr ⟨d, hd, hp⟩
      exact findFields_updateFirst_same j.source_url _ (convert_source_url t j) st.store hmem
  | none =>
      simp only
      rw [findFields, findByUrl, List.find?_append]
      rw [findByUrl] at hf
      rw [hf]
      simp [convert_source_url]

theorem syncFold_preserves_other (t : Nat) :
    ∀ (jobs : List SqliteJob) (st : SyncState) (u : String),
      (∀ j ∈ jobs, j.source_url ≠ u) →
      findByUrl u ((jobs.foldl (syncStep t noRaise) st)).store = findByUrl u st.store := by
  intro jobs
  induction jobs with
  | nil => intro st u _; rfl
  | cons a rest ih =>
      intro st u hall
      rw [List.foldl_cons]
      rw [ih _ u (fun j hj => hall j (List.mem_cons_of_mem a hj))]
      exact syncStep_preserves_other t st a u (hall a (List.mem_cons_self a rest))

theorem run1_findFields (t : Nat) :
    ∀ (jobs : List SqliteJob) (st : SyncState),
      (jobs.map (fun j => j.source_url)).Nodup →
      ∀ j ∈ jobs,
        findFields j.source_url ((jobs.foldl (syncStep t noRaise) st)).store
          = some (convertSqliteToMongodb t j) := by
  intro jobs
  induction jobs with
  | nil => intro st _ j hj; exact absurd hj (List.not_mem_nil j)
  | cons a rest ih =>
      intro st hnd j hj
      rw [List.map_cons, List.nodup_cons] at hnd
      obtain ⟨hna, hndr⟩ := hnd
      rw [List.foldl_cons]
      rcases List.mem_cons.mp hj with rfl | hj
      · have hall : ∀ j' ∈ rest, j'.source_url ≠ j.source_url := by
          intro j' hj' heq
          exact hna (heq ▸ List.mem_map.mpr ⟨j', hj', rfl⟩)
        rw [findFields,
          syncFold_preserves_other t rest (syncStep t noRaise st j) j.source_url hall,
          ← findFields]
        exact syncStep_self_find t st j
      · exact ih (syncStep t noRaise st a) hndr j hj

theorem eraseStore_updateFirst (url : String) (g : JobFields) :
    ∀ (store : List StoredDoc) (d : StoredDoc),
      findByUrl url store = some d →
      eraseSyncFields g = eraseSyncFields d.fields →
      eraseSyncStore (updateFirstDoc url g store) = eraseSyncStore store := by
  intro store
  induction store with
  | nil => intro d h _; simp [findByUrl] at h
  | cons a as ih =>
      intro d hfind herase
      rw [findByUrl, List.find?_cons] at hfind
      rw [updateFirstDoc]
      cases ha : (a.fields.source_url == url) with
      | true =>
          rw [ha] at hfind
          simp only [Option.some.injEq] at hfind
          subst hfind
          simp only [ha, if_true]
          rw [eraseSyncStore, eraseSyncStore, List.map_cons, List.map_cons]
          congr 1
          simp only
          rw [herase]
      | false =>
          rw [ha] at hfind
          simp only [ha, Bool.false_eq_true, if_false]
          rw [eraseSyncStore, eraseSyncStore, List.map_cons, List.map_cons]
          congr 1
          exact ih d hfind herase

theorem run2_overwrites (t2 : Nat) :
    ∀ (jobs : List SqliteJob) (st : SyncState),
      (jobs.map (fun j => j.source_url)).Nodup →
      (∀ j ∈ jobs, ∃ f, findFields j.source_url st.store = some f
          ∧ eraseSyncFields f = eraseSyncFields (convertSqliteToMongodb 0 j)) →
      eraseSyncStore ((jobs.foldl (syncStep t2 noRaise) st)).store = eraseSyncStore st.store
      ∧ (jobs.foldl (syncStep t2 noRaise) st).synced = st.synced
      ∧ (jobs.foldl (syncStep t2 noRaise) st).errors = st.errors
      ∧ (jobs.foldl (syncStep t2 noRaise) st).updated = st.updated + jobs.length := by
  intro jobs
  induction jobs with
  | nil => intro st _ _; exact ⟨rfl, rfl, rfl, by simp⟩
  | cons a rest ih =>
      intro st hnd hhyp
      rw [List.map_cons, List.nodup_cons] at hnd
      obtain ⟨hna, hndr⟩ := hnd
      obtain ⟨f, hfindF, hface⟩ := hhyp a (List.mem_cons_self a rest)
      rw [findFields] at hfindF
      obtain ⟨d, hfind, hdf⟩ := Option.map_eq_some'.mp hfindF
      rw [List.foldl_cons]
      have hstep : syncStep t2 noRaise st a
          = { st with
              store := updateFirstDoc a.source_url (convertSqliteToMongodb t2 a) st.store
              updated := st.updated + 1 } := by
        rw [syncStep]
        simp only [noRaise, Bool.false_eq_true, if_false]
        rw [hfind]
      have herase : eraseSyncFields (convertSqliteToMongodb t2 a) = eraseSyncFields d.fields := by
        rw [eraseSync_convert t2 0 a, ← hface, hdf]
      have hstore : eraseSyncStore (syncStep t2 noRaise st a).store = eraseSyncStore st.store := by
        rw [hstep]
        exact eraseStore_updateFirst a.source_url _ st.store d hfind herase
      have hothers : ∀ j ∈ rest, ∃ f', findFields j.source_url (syncStep t2 noRaise st a).store
          = some f' ∧ eraseSyncFields f' = eraseSyncFields (convertSqliteToMongodb 0 j) := by
        intro j hj
        obtain ⟨f', hf', he'⟩ := hhyp j (List.mem_cons_of_mem a hj)
        refine ⟨f', ?_, he'⟩
        rw [hstep, findFields]
        have hne : a.source_url ≠ j.source_url := by
          intro heq
          exact hna (heq ▸ List.mem_map.mpr ⟨j, hj, rfl⟩)
        rw [findByUrl_updateFirst_other j.source_url a.source_url _ hne
          (convert_source_url t2 a) st.store]
        rw [findFields] at hf'
        exact hf'
      obtain ⟨ih1, ih2, ih3, ih4⟩ := ih (syncStep t2 noRaise st a) hndr hothers
      refine ⟨ih1.trans hstore, ?_, ?_, ?_⟩
      · rw [ih2, hstep]
      · rw [ih3, hstep]
      · rw [ih4, hstep]
        simp only [List.length_cons]
        omega

/-- C1 counterexample: syncing one row at clock 0 and re-syncing at clock 1
changes the stored document — the second run restamps `metadata.sync_date` —
even though the stores agree once the sync timestamp is erased. -/
theorem C1_sync_idempotent_counterexample :
    (syncSqliteToMongodb 1 noRaise 100 [testSqliteJob 1 "u"]
        (syncSqliteToMongodb 0 noRaise 100 [testSqliteJob 1 "u"] [] 0).store
        (syncSqliteToMongodb 0 noRaise 100 [testSqliteJob 1 "u"] [] 0).oidSupply).store
      ≠ (syncSqliteToMongodb 0 noRaise 100 [testSqliteJob 1 "u"] [] 0).store
    ∧ eraseSyncStore
        (syncSqliteToMongodb 1 noRaise 100 [testSqliteJob 1 "u"]
          (syncSqliteToMongodb 0 noRaise 100 [testSqliteJob 1 "u"] [] 0).store
          (syncSqliteToMongodb 0 noRaise 100 [testSqliteJob 1 "u"] [] 0).oidSupply).store
      = eraseSyncStore (syncSqliteToMongodb 0 noRaise 100 [testSqliteJob 1 "u"] [] 0).store := by
  have hb : (0 : Nat) < 100 := by norm_num
  constructor
  · rw [syncRun_eq_foldl 0 noRaise 100 hb [testSqliteJob 1 "u"] [] 0,
      syncRun_eq_foldl 1 noRaise 100 hb [testSqliteJob 1 "u"] _ _]
    decide
  · rw [syncRun_eq_foldl 0 noRaise 100 hb [testSqliteJob 1 "u"] [] 0,
      syncRun_eq_foldl 1 noRaise 100 hb [testSqliteJob 1 "u"] _ _]
    decide

/-- C1 (amended): for source rows with pairwise-distinct `source_url`s (the
Source Store's natural-key invariant), a second sync run performs only
full-field overwrites keyed by `source_url` — it inserts nothing and errors on
nothing — and leaves the `jobs` collection with the same content as one run
except that each synced document's `metadata.sync_date` is restamped with the
second run's clock.  The original claim's "changes no document content" fails
exactly on that timestamp (see the counterexample). -/
theorem C1_sync_idempotent_amended (t1 t2 batchSize : Nat) (hb : 0 < batchSize)
    (jobs : List SqliteJob) (store : List StoredDoc) (supply : Nat)
    (hnd : (jobs.map (fun j => j.source_url)).Nodup) :
    eraseSyncStore
        (syncSqliteToMongodb t2 noRaise batchSize jobs
          (syncSqliteToMongodb t1 noRaise batchSize jobs store supply).store
          (syncSqliteToMongodb t1 noRaise batchSize jobs store supply).oidSupply).store
      = eraseSyncStore (syncSqliteToMongodb t1 noRaise batchSize jobs store supply).store
    ∧ (syncSqliteToMongodb t2 noRaise batchSize jobs
        (syncSqliteToMongodb t1 noRaise batchSize jobs store supply).store
        (syncSqliteToMongodb t1 noRaise batchSize jobs store supply).oidSupply).synced = 0
    ∧ (syncSqliteToMongodb t2 noRaise batchSize jobs
        (syncSqliteToMongodb t1 noRaise batchSize jobs store supply).store
        (syncSqliteToMongodb t1 noRaise batchSize jobs store supply).oidSupply).errors = 0
    ∧ (syncSqliteToMongodb t2 noRaise batchSize jobs
        (syncSqliteToMongodb t1 noRaise batchSize jobs store supply).store
        (syncSqliteToMongodb t1 noRaise batchSize jobs store supply).oidSupply).updated
      = jobs.length := by
  rw [syncRun_eq_foldl t1 noRaise batchSize hb jobs store supply,
    syncRun_eq_foldl t2 noRaise batchSize hb jobs _ _]
  have hhyp : ∀ j ∈ jobs, ∃ f,
      findFields j.source_url
        (({ store :=
              ((jobs.foldl (syncStep t1 noRaise)
                { store := store, oidSupply := supply, synced := 0, updated := 0,
                  errors := 0 })).store
            oidSupply :=
              ((jobs.foldl (syncStep t1 noRaise)
                { store := store, oidSupply := supply, synced := 0, updated := 0,
                  errors := 0 })).oidSupply
            synced := 0, updated := 0, errors := 0 } : SyncState)).store = some f
      ∧ eraseSyncFields f = eraseSyncFields (convertSqliteToMongodb 0 j) := by
    intro j hj
    refine ⟨convertSqliteToMongodb t1 j, ?_, eraseSync_convert t1 0 j⟩
    exact run1_findFields t1 jobs _ hnd j hj
  obtain ⟨h1, h2, h3, h4⟩ := run2_overwrites t2 jobs _ hnd hhyp
  exact ⟨h1, h2, h3, by rw [h4]; simp⟩

/-- Concrete instantiation of `C1_sync_idempotent_amended`: two rows with
distinct URLs, synced twice at clocks 4 and 9, leave a timestamp-erased store
unchanged and a second run reporting `0` inserts. -/
theorem C1_sync_idempotent_amended_witness :
    eraseSyncStore
        (syncSqliteToMongodb 9 noRaise 100 [testSqliteJob 1 "a", testSqliteJob 2 "b"]
          (syncSqliteToMongodb 4 noRaise 100 [testSqliteJob 1 "a", testSqliteJob 2 "b"] [] 0).store
          (syncSqliteToMongodb 4 noRaise 100 [testSqliteJob 1 "a", testSqliteJob 2 "b"] [] 0).oidSupply).store
      = eraseSyncStore
          (syncSqliteToMongodb 4 noRaise 100 [testSqliteJob 1 "a", testSqliteJob 2 "b"] [] 0).store :=
  (C1_sync_idempotent_amended 4 9 100 (by decide)
    [testSqliteJob 1 "a", testSqliteJob 2 "b"] [] 0 (by decide)).1

end RemoteJobs
